import Mathlib

/-!
A shallow embedding of `src/pawpal_system.py` (the PawPal pet-care scheduler).

Python objects live on a heap, and `Task` / `Walk` objects are shared: the
same task object is reachable from `user.tasks` and from its pet's `tasks`
list, and a walk object from `user.walks` and from `task.walk`.  The
embedding therefore keeps arenas (`taskArena`, `walkArena`) of allocated
objects, and every list holds arena indices, so a mutation of one object is
visible through every list referencing it, exactly as in Python.

`datetime` values are minutes since an arbitrary epoch (`Int`);
`timedelta(minutes=m)` is `+ m`, `timedelta(days=1)` is `+ 1440`,
`timedelta(weeks=1)` is `+ 10080`.

The repository file is stored mojibake-encoded: the emoji in its f-strings
are the cp1252 re-decodings (for example the warning sign appears as the
characters `U+00E2 U+0161 U+00A0 U+00EF U+00B8`).  The string constants
below reproduce exactly the characters the Python parser sees in the file.
-/

namespace PawPal

/-- Minutes in a day, Python's `timedelta(days=1)`. -/
def minutesPerDay : Int := 1440

/-- Minutes in a week, Python's `timedelta(weeks=1)`. -/
def minutesPerWeek : Int := 10080

/-- Python class `Pet`: `tasks` holds task-arena indices (Python holds object
references).  The `owner` back-reference is never read by the scheduler and
is dropped. -/
structure Pet where
  petId : String
  name : String
  breed : String
  age : Int
  tasks : List Nat
  deriving Repr, DecidableEq, Inhabited

/-- Python class `Walk`; `pet` is the pet's position in `user.pets`. -/
structure Walk where
  walkId : String
  pet : Nat
  scheduledTime : Int
  duration : Int
  status : String
  deriving Repr, DecidableEq, Inhabited

/-- Python class `Task`; `walk` is a walk-arena index, `pet` a position in
`user.pets`, and `user` is `some ()` when the back-reference is set (there is
a single user, so the reference carries no further information). -/
structure Task where
  taskId : String
  description : String
  dueDate : Int
  priority : String
  isCompleted : Bool
  walk : Option Nat
  user : Option Unit
  pet : Option Nat
  recurrence : Option String
  deriving Repr, DecidableEq, Inhabited

/-- The heap of one `User` and the `Scheduler` over it: `pets` is
`user.pets` (pet objects, identified by position), `taskArena` / `walkArena`
hold every allocated `Task` / `Walk` object, and `tasks` / `walks` are
`user.tasks` / `user.walks` as lists of arena indices. -/
structure State where
  pets : List Pet
  taskArena : List Task
  walkArena : List Walk
  tasks : List Nat
  walks : List Nat
  deriving Repr, DecidableEq, Inhabited

/-- Dereference a task-arena index (in Python, the object itself). -/
def State.task (st : State) (i : Nat) : Task := st.taskArena.getD i default

/-- Dereference a walk-arena index. -/
def State.walkAt (st : State) (w : Nat) : Walk := st.walkArena.getD w default

/-- Python `Task.getNextOccurrence`: `dueDate + 1 day` for `"daily"`,
`dueDate + 1 week` for `"weekly"`, `None` otherwise. -/
def Task.getNextOccurrence (task : Task) : Option Int :=
  if task.recurrence = some "daily" then some (task.dueDate + minutesPerDay)
  else if task.recurrence = some "weekly" then some (task.dueDate + minutesPerWeek)
  else none

/-- Python `Task.markComplete` on the task object at arena index `i`: set
`isCompleted = True`, and move an attached walk to status `"completed"`. -/
def markComplete (st : State) (i : Nat) : State :=
  let task := st.task i
  let st1 := { st with taskArena := st.taskArena.set i { task with isCompleted := true } }
  match task.walk with
  | some w =>
    { st1 with walkArena := st1.walkArena.set w { st1.walkAt w with status := "completed" } }
  | none => st1

/-- Python `Pet.getScheduledWalks`: the walk of every task of the pet whose
walk is set and which is not completed (as walk-arena indices). -/
def getScheduledWalks (st : State) (pet : Pet) : List Nat :=
  pet.tasks.filterMap (fun i =>
    let task := st.task i
    match task.walk with
    | some w => if task.isCompleted then none else some w
    | none => none)

/-- Zero-padded two-digit decimal, Python's `%I` / `%M` fields. -/
def pad2 (n : Nat) : String := if n < 10 then "0" ++ toString n else toString n

/-- Python `datetime.strftime("%I:%M %p")` for a time in minutes: zero-padded
12-hour clock with AM/PM.  `Int.emod` is floor-based, so the minute-of-day is
correct also for times before the epoch, as for Python datetimes. -/
def fmtTime (t : Int) : String :=
  let m := (t % 1440).toNat
  let h := m / 60
  let mi := m % 60
  let h12 := if h % 12 = 0 then 12 else h % 12
  let ap := if h < 12 then "AM" else "PM"
  pad2 h12 ++ ":" ++ pad2 mi ++ " " ++ ap

/-- The duration read `task.walk.duration` of the conflict scans; it is only
ever evaluated on walk-bearing tasks (junk `0` otherwise). -/
def taskWalkDuration (st : State) (i : Nat) : Int :=
  match (st.task i).walk with
  | some w => (st.walkAt w).duration
  | none => 0

/-- The conflict line `hasConflict` appends for one overlapping walk task. -/
def conflictMsg (pet : Pet) (task : Task) (walkDuration : Int) : String :=
  "âš\xa0ï¸  CONFLICT: " ++ pet.name ++ " already has '" ++ task.description
    ++ "' at " ++ fmtTime task.dueDate ++ " (duration: " ++ toString walkDuration ++ " min)"

/-- The confirmation message of `hasConflict` when nothing overlaps. -/
def noConflictMsg (pet : Pet) (scheduled_time : Int) : String :=
  "âœ… No conflicts found for " ++ pet.name ++ " at " ++ fmtTime scheduled_time

/-- The loop body of Python `Scheduler.hasConflict`: one iteration over a
task of `pet_tasks`, appending its conflict line when it is a walk task and
the windows overlap. -/
def conflictStep (st : State) (pet : Pet) (scheduled_time new_end_time : Int)
    (conflicts : List String) (i : Nat) : List String :=
  let task := st.task i
  match task.walk with
  | some w =>
    let task_end_time := task.dueDate + (st.walkAt w).duration
    if scheduled_time < task_end_time ∧ new_end_time > task.dueDate then
      conflicts ++ [conflictMsg pet task (st.walkAt w).duration]
    else conflicts
  | none => conflicts

/-- The accumulation loop of Python `Scheduler.hasConflict`: over the pet's
uncompleted tasks, append one conflict line per walk-bearing task whose
window overlaps `[scheduled_time, scheduled_time + duration)`. -/
def hasConflictReasons (st : State) (pet : Pet) (scheduled_time duration : Int) : List String :=
  let new_end_time := scheduled_time + duration
  let pet_tasks := pet.tasks.filter (fun i => !(st.task i).isCompleted)
  pet_tasks.foldl (conflictStep st pet scheduled_time new_end_time) []

/-- Python `Scheduler.hasConflict`: `(True, newline-joined conflict lines)`
when some active walk task of the pet overlaps the proposed window, else
`(False, confirmation message)`. -/
def hasConflict (st : State) (pet : Pet) (scheduled_time duration : Int) : Bool × String :=
  let conflicts := hasConflictReasons st pet scheduled_time duration
  if conflicts.isEmpty then (false, noConflictMsg pet scheduled_time)
  else (true, String.intercalate "\n" conflicts)

/-- Python `Scheduler.scheduleWalk`: abort with `none` when `hasConflict`
fires; otherwise allocate a `Walk` and its companion `Task` and register them
in `user.walks`, `user.tasks` and the pet's task list.  Returns the walk's
arena index (Python returns the walk object). -/
def scheduleWalk (st : State) (petIdx : Nat) (time duration : Int) : State × Option Nat :=
  let pet := st.pets.getD petIdx default
  if (hasConflict st pet time duration).1 then (st, none)
  else
    let walk : Walk := { walkId := "walk_" ++ toString (st.walks.length + 1),
                         pet := petIdx, scheduledTime := time, duration := duration,
                         status := "scheduled" }
    let wIdx := st.walkArena.length
    let task : Task := { taskId := "task_" ++ toString (st.tasks.length + 1),
                         description := "Walk " ++ pet.name, dueDate := time,
                         priority := "high", isCompleted := false, walk := some wIdx,
                         user := some (), pet := some petIdx, recurrence := none }
    let tIdx := st.taskArena.length
    let st1 : State := { st with
      walkArena := st.walkArena ++ [walk],
      taskArena := st.taskArena ++ [task],
      walks := st.walks ++ [wIdx],
      tasks := st.tasks ++ [tIdx],
      pets := st.pets.set petIdx { pet with tasks := pet.tasks ++ [tIdx] } }
    (st1, some wIdx)

/-- Python `Scheduler.completeTask` on the task object at index `i`: mark it
complete; when its recurrence is truthy (neither `None` nor the empty string)
and a next occurrence exists, allocate the cloned successor, register it in
`user.tasks` and — when the task has a pet — in that pet's task list, and
return its arena index. -/
def completeTask (st : State) (i : Nat) : State × Option Nat :=
  let st1 := markComplete st i
  let task := st1.task i
  if task.recurrence ≠ none ∧ task.recurrence ≠ some "" then
    match task.getNextOccurrence with
    | some next_due_date =>
      let new_task : Task := { taskId := "task_" ++ toString (st1.tasks.length + 1),
                               description := task.description, dueDate := next_due_date,
                               priority := task.priority, isCompleted := false,
                               walk := none, user := task.user, pet := task.pet,
                               recurrence := task.recurrence }
      let nIdx := st1.taskArena.length
      let st2 : State := { st1 with taskArena := st1.taskArena ++ [new_task],
                                    tasks := st1.tasks ++ [nIdx] }
      let st3 : State :=
        match task.pet with
        | some p =>
          let petObj := st2.pets.getD p default
          { st2 with pets := st2.pets.set p { petObj with tasks := petObj.tasks ++ [nIdx] } }
        | none => st2
      (st3, some nIdx)
    | none => (st1, none)
  else (st1, none)

/-- One report line of Python `Scheduler.checkAllConflicts`. -/
def allConflictMsg (pet : Pet) (task1 task2 : Task) : String :=
  "ðŸ”´ CONFLICT DETECTED\n   Pet: " ++ pet.name
    ++ "\n   Task 1: " ++ task1.description ++ " at " ++ fmtTime task1.dueDate
    ++ "\n   Task 2: " ++ task2.description ++ " at " ++ fmtTime task2.dueDate

/-- The overlap test of the conflict scans on walk tasks `i` and `j`:
`task1.dueDate < task2's end AND task1's end > task2.dueDate`. -/
def overlaps (st : State) (i j : Nat) : Bool :=
  decide ((st.task i).dueDate < (st.task j).dueDate + taskWalkDuration st j)
    && decide ((st.task i).dueDate + taskWalkDuration st i > (st.task j).dueDate)

/-- The double loop of `checkAllConflicts` over one pet's active walk tasks
(`for i, task1 in enumerate(...)` / `for task2 in pet_tasks[i+1:]`): each
positionally ordered pair is checked once. -/
def pairConflicts (st : State) (pet : Pet) : List Nat → List String
  | [] => []
  | i :: rest =>
    ((rest.filter (fun j => overlaps st i j)).map
      (fun j => allConflictMsg pet (st.task i) (st.task j)))
      ++ pairConflicts st pet rest

/-- The active walk-bearing tasks of a pet, as scanned by
`checkAllConflicts` (`not task.isCompleted and task.walk`). -/
def activeWalkTasks (st : State) (pet : Pet) : List Nat :=
  pet.tasks.filter (fun i => !(st.task i).isCompleted && (st.task i).walk.isSome)

/-- Python `Scheduler.checkAllConflicts`: per pet, pairwise-scan the active
walk-bearing tasks and collect one report per colliding pair. -/
def checkAllConflicts (st : State) : List String :=
  (st.pets.map (fun pet => pairConflicts st pet (activeWalkTasks st pet))).flatten

/-- Python's `priority_order.get(task.priority, 3)`. -/
def priorityRank (p : String) : Nat :=
  if p = "high" then 0 else if p = "medium" then 1 else if p = "low" then 2 else 3

/-- The sort key `(priority_order.get(task.priority, 3), task.dueDate)`. -/
def priorityKey (task : Task) : Nat × Int := (priorityRank task.priority, task.dueDate)

/-- Python's lexicographic order on the key tuples. -/
def keyLe (a b : Nat × Int) : Prop := a.1 < b.1 ∨ (a.1 = b.1 ∧ a.2 ≤ b.2)

instance : DecidableRel keyLe := fun a b => by
  unfold keyLe; infer_instance

/-- The sort relation of `sortTasksByPriority`. -/
def taskLe (t1 t2 : Task) : Prop := keyLe (priorityKey t1) (priorityKey t2)

instance : DecidableRel taskLe := fun t1 t2 => by
  unfold taskLe; infer_instance

instance : IsTotal Task taskLe :=
  ⟨fun t1 t2 => by unfold taskLe keyLe; omega⟩

instance : IsTrans Task taskLe :=
  ⟨fun t1 t2 t3 => by unfold taskLe keyLe; omega⟩

/-- Python `Scheduler.sortTasksByPriority`: `sorted(tasks, key=...)` is the
stable ascending sort by the key; a stable sort by a total preorder is
extensionally unique, and `List.insertionSort` by `taskLe` is one. -/
def sortTasksByPriority (tasks : List Task) : List Task :=
  List.insertionSort taskLe tasks

/-- One iteration body of Python `Scheduler.rescheduleMissedTasks` on the
task object at index `i`: when the task is overdue, uncompleted and has a
next occurrence, advance its `dueDate` in place, mark it complete, append a
clone at the new date to `user.tasks` only, and reset an attached walk to the
new time. -/
def rescheduleStep (now : Int) (st : State) (i : Nat) : State :=
  let task := st.task i
  if task.dueDate < now ∧ task.isCompleted = false then
    match task.getNextOccurrence with
    | some next_occurrence =>
      let stA : State :=
        { st with taskArena := st.taskArena.set i { task with dueDate := next_occurrence } }
      let stB := markComplete stA i
      let new_task : Task := { taskId := "task_" ++ toString (stB.tasks.length + 1),
                               description := task.description, dueDate := next_occurrence,
                               priority := task.priority, isCompleted := false, walk := none,
                               user := some (), pet := task.pet, recurrence := task.recurrence }
      let stC : State := { stB with taskArena := stB.taskArena ++ [new_task],
                                    tasks := stB.tasks ++ [stB.taskArena.length] }
      match task.walk with
      | some w =>
        let rescheduled : Walk :=
          { stC.walkAt w with scheduledTime := next_occurrence, status := "scheduled" }
        { stC with walkArena := stC.walkArena.set w rescheduled }
      | none => stC
    | none => st
  else st

/-- The `for task in self.user.tasks` loop of `rescheduleMissedTasks`:
Python's list iterator walks by position over the live list, so clones
appended during the loop are themselves visited; `fuel` bounds the number of
iterations (every concrete run terminates, each clone's due date advancing by
at least a day). -/
def rescheduleLoop (now : Int) : Nat → State → Nat → State
  | 0, st, _ => st
  | fuel + 1, st, k =>
    if k < st.tasks.length then
      rescheduleLoop now fuel (rescheduleStep now st (st.tasks.getD k 0)) (k + 1)
    else st

/-- Python `Scheduler.rescheduleMissedTasks` (with iteration fuel and the
wall-clock time `now` passed explicitly). -/
def rescheduleMissedTasks (now : Int) (st : State) (fuel : Nat) : State :=
  rescheduleLoop now fuel st 0

/-- One call `scheduler.scheduleWalk(user.pets[petIdx], time, duration)`. -/
structure WalkCall where
  petIdx : Nat
  time : Int
  duration : Int
  deriving Repr, DecidableEq, Inhabited

/-- Run a sequence of `scheduleWalk` calls, keeping the resulting state. -/
def applyWalks (st : State) (calls : List WalkCall) : State :=
  calls.foldl (fun s c => (scheduleWalk s c.petIdx c.time c.duration).1) st

/-- Arena well-formedness: every task index held by a pet or by `user.tasks`
points into the task arena, and every walk reference of an allocated task
points into the walk arena. -/
def WF (st : State) : Prop :=
  (∀ pet ∈ st.pets, ∀ i ∈ pet.tasks, i < st.taskArena.length) ∧
  (∀ task ∈ st.taskArena, ∀ w ∈ task.walk, w < st.walkArena.length) ∧
  (∀ i ∈ st.tasks, i < st.taskArena.length)

/-- Task `i` is active and walk-bearing — the tasks subject to conflicts. -/
def activeWalkTask (st : State) (i : Nat) : Prop :=
  (st.task i).isCompleted = false ∧ (st.task i).walk.isSome = true

/-- No pet has two active walk-bearing tasks with overlapping half-open
windows (over the positionally ordered pairs of its task list). -/
def NoOverlaps (st : State) : Prop :=
  ∀ pet ∈ st.pets, pet.tasks.Pairwise (fun i j =>
    activeWalkTask st i → activeWalkTask st j → overlaps st i j = false)

/-- `st'` extends `st`: both arenas grew by appending only, so every object
reference valid in `st` dereferences identically in `st'`. -/
def Extends (st' st : State) : Prop :=
  (∃ ts, st'.taskArena = st.taskArena ++ ts) ∧ ∃ ws, st'.walkArena = st.walkArena ++ ws

/-- The per-task test of `hasConflict` on task `i`: a walk is attached and
the window overlaps `[t, e)` (where `e` is the proposed end time). -/
def overlapsNew (st : State) (t e : Int) (i : Nat) : Bool :=
  (st.task i).walk.isSome
    && decide (t < (st.task i).dueDate + taskWalkDuration st i)
    && decide (e > (st.task i).dueDate)

/-- Complete a task, then repeatedly complete the successor it produced:
`completeChain st i n` performs `n` `completeTask` calls, each on the task
the previous call returned, and keeps the last returned index. -/
def completeChain : State → Nat → Nat → State × Nat
  | st, i, 0 => (st, i)
  | st, i, n + 1 =>
    let r := completeTask st i
    completeChain r.1 (r.2.getD 0) n

/-- A pet used by the concrete evaluations below. -/
def buddy : Pet :=
  { petId := "pet_001", name := "Buddy", breed := "Golden Retriever", age := 3, tasks := [] }

/-- Example state: Buddy with two committed 30-minute walks at 08:00 and
08:20 (time is minutes from midnight of an epoch day). -/
def exTwoWalks : State :=
  { pets := [{ buddy with tasks := [0, 1] }],
    taskArena :=
      [{ taskId := "task_1", description := "Walk A", dueDate := 480, priority := "high",
         isCompleted := false, walk := some 0, user := some (), pet := some 0,
         recurrence := none },
       { taskId := "task_2", description := "Walk B", dueDate := 500, priority := "high",
         isCompleted := false, walk := some 1, user := some (), pet := some 0,
         recurrence := none }],
    walkArena :=
      [{ walkId := "walk_1", pet := 0, scheduledTime := 480, duration := 30,
         status := "scheduled" },
       { walkId := "walk_2", pet := 0, scheduledTime := 500, duration := 30,
         status := "scheduled" }],
    tasks := [0, 1], walks := [0, 1] }

/-- Example state: Buddy with one daily recurring feeding task at 08:00. -/
def exDaily : State :=
  { pets := [{ buddy with tasks := [0] }],
    taskArena :=
      [{ taskId := "task_1", description := "Feed Buddy", dueDate := 480, priority := "medium",
         isCompleted := false, walk := none, user := some (), pet := some 0,
         recurrence := some "daily" }],
    walkArena := [], tasks := [0], walks := [] }

/-- Example state: like `exDaily` but with the unsupported recurrence
`"monthly"`. -/
def exMonthly : State :=
  { pets := [{ buddy with tasks := [0] }],
    taskArena :=
      [{ taskId := "task_1", description := "Vet visit", dueDate := 480, priority := "high",
         isCompleted := false, walk := none, user := some (), pet := some 0,
         recurrence := some "monthly" }],
    walkArena := [], tasks := [0], walks := [] }

/-- Example state: Buddy with no tasks at all. -/
def exEmpty : State :=
  { pets := [buddy], taskArena := [], walkArena := [], tasks := [], walks := [] }

/-- The walk-scheduling scenario of the spec: 08:00 for 30 min, 08:15 for
30 min (conflicting), 08:30 for 20 min (back-to-back). -/
def exCalls : List WalkCall :=
  [{ petIdx := 0, time := 480, duration := 30 },
   { petIdx := 0, time := 495, duration := 30 },
   { petIdx := 0, time := 510, duration := 20 }]
/-! ## Basic list lemmas -/

theorem getD_set_self {α : Type} (l : List α) (i : Nat) (a d : α) (h : i < l.length) :
    (l.set i a).getD i d = a := by
  simp [List.getD_eq_getElem?_getD, List.getElem?_set, h]

theorem getD_set_ne {α : Type} (l : List α) (i j : Nat) (a d : α) (h : i ≠ j) :
    (l.set i a).getD j d = l.getD j d := by
  simp [List.getD_eq_getElem?_getD, List.getElem?_set, h]

theorem getD_append_last {α : Type} (l : List α) (a d : α) :
    (l ++ [a]).getD l.length d = a := by
  rw [List.getD_append_right l [a] d l.length (le_refl _)]
  simp

/-! ## The conflict detector: characterization of `hasConflict` -/

theorem conflictStep_eq (st : State) (pet : Pet) (t e : Int) (acc : List String) (i : Nat) :
    conflictStep st pet t e acc i
      = acc ++ (if overlapsNew st t e i then
          [conflictMsg pet (st.task i) (taskWalkDuration st i)] else []) := by
  unfold conflictStep overlapsNew taskWalkDuration
  cases h : (st.task i).walk with
  | none => simp [h]
  | some w =>
    by_cases hc : t < (st.task i).dueDate + (st.walkAt w).duration ∧ e > (st.task i).dueDate
    · simp [h, hc]
    · simp only [h, if_neg hc, Option.isSome_some, Bool.true_and]
      rw [if_neg, List.append_nil]
      intro hb
      exact hc ⟨by simpa using (Bool.and_elim_left hb), by simpa using (Bool.and_elim_right hb)⟩

theorem foldl_conflictStep (st : State) (pet : Pet) (t e : Int) (l : List Nat) :
    ∀ acc : List String,
      l.foldl (conflictStep st pet t e) acc
        = acc ++ (l.filter (overlapsNew st t e)).map
            (fun i => conflictMsg pet (st.task i) (taskWalkDuration st i)) := by
  induction l with
  | nil => intro acc; simp
  | cons i l ih =>
    intro acc
    rw [List.foldl_cons, conflictStep_eq, ih]
    by_cases h : overlapsNew st t e i = true <;>
      simp [h, List.filter_cons, List.append_assoc]

/-- The conflict lines are exactly one line per uncompleted, walk-bearing,
overlapping task of the pet, in task-list order. -/
theorem hasConflictReasons_eq (st : State) (pet : Pet) (t d : Int) :
    hasConflictReasons st pet t d
      = ((pet.tasks.filter (fun i => !(st.task i).isCompleted)).filter
          (overlapsNew st t (t + d))).map
          (fun i => conflictMsg pet (st.task i) (taskWalkDuration st i)) := by
  unfold hasConflictReasons
  simpa using foldl_conflictStep st pet t (t + d)
    (pet.tasks.filter (fun i => !(st.task i).isCompleted)) []

/-- Unfolding of the per-task boolean test into the half-open overlap rule. -/
theorem overlapsNew_eq_true_iff (st : State) (t e : Int) (i : Nat) :
    overlapsNew st t e i = true ↔
      ∃ w, (st.task i).walk = some w ∧
        t < (st.task i).dueDate + (st.walkAt w).duration ∧ e > (st.task i).dueDate := by
  unfold overlapsNew taskWalkDuration
  cases h : (st.task i).walk with
  | none => simp [h]
  | some w => simp [h, and_assoc]

theorem hasConflict_fst_eq (st : State) (pet : Pet) (s d : Int) :
    (hasConflict st pet s d).1 = !(hasConflictReasons st pet s d).isEmpty := by
  unfold hasConflict
  cases hc : (hasConflictReasons st pet s d).isEmpty <;> simp [hc]

/-- Membership in the filtered overlapping-task list, unpacked. -/
theorem mem_overlap_filter_iff (st : State) (pet : Pet) (s d : Int) (i : Nat) :
    (i ∈ (pet.tasks.filter (fun i => !(st.task i).isCompleted)).filter
      (overlapsNew st s (s + d))) ↔
    (i ∈ pet.tasks ∧ (st.task i).isCompleted = false ∧
      ∃ w, (st.task i).walk = some w ∧
        s < (st.task i).dueDate + (st.walkAt w).duration ∧
        s + d > (st.task i).dueDate) := by
  rw [List.mem_filter, List.mem_filter, overlapsNew_eq_true_iff, and_assoc]
  simp

/-- Helper: the boolean verdict of `hasConflict`, as an existential over the
pet's task list. -/
theorem hasConflict_fst_iff (st : State) (pet : Pet) (s d : Int) :
    (hasConflict st pet s d).1 = true ↔
      ∃ i ∈ pet.tasks, (st.task i).isCompleted = false ∧
        ∃ w, (st.task i).walk = some w ∧
          s < (st.task i).dueDate + (st.walkAt w).duration ∧
          s + d > (st.task i).dueDate := by
  rw [hasConflict_fst_eq]
  constructor
  · intro h
    have hne : hasConflictReasons st pet s d ≠ [] := by
      intro hnil; rw [hnil] at h; simp at h
    rw [hasConflictReasons_eq, Ne, List.map_eq_nil_iff] at hne
    obtain ⟨i, hi⟩ := List.exists_mem_of_ne_nil _ hne
    have h' := (mem_overlap_filter_iff st pet s d i).1 hi
    exact ⟨i, h'.1, h'.2⟩
  · rintro ⟨i, hi, hrest⟩
    have hmem := (mem_overlap_filter_iff st pet s d i).2 ⟨hi, hrest⟩
    have hne : hasConflictReasons st pet s d ≠ [] := by
      rw [hasConflictReasons_eq, Ne, List.map_eq_nil_iff]
      exact List.ne_nil_of_mem hmem
    simpa [List.isEmpty_iff] using hne

/-- C1: `hasConflict(pet, s, d)` reports a conflict if and only if the pet
has some task with `isCompleted == false` and an attached walk whose window
`[task.dueDate, task.dueDate + walk.duration)` overlaps `[s, s + d)` under
the half-open rule `s < task.dueDate + walk.duration AND s + d > task.dueDate`.
In particular, for back-to-back windows (`s = task.dueDate + walk.duration`
or `s + d = task.dueDate`) both strict inequalities fail, so they never
conflict. -/
theorem hasConflict_iff_halfopen_overlap (st : State) (pet : Pet) (s d : Int) :
    (hasConflict st pet s d).1 = true ↔
      ∃ i ∈ pet.tasks, (st.task i).isCompleted = false ∧
        ∃ w, (st.task i).walk = some w ∧
          s < (st.task i).dueDate + (st.walkAt w).duration ∧
          s + d > (st.task i).dueDate :=
  hasConflict_fst_iff st pet s d

/-- C6 (amended): `hasConflict` returns a pair of a boolean and one single
message string, not a list: the boolean is true iff some uncompleted
walk-bearing task of the pet overlaps, and the string is the newline-join of
one reason line per overlapping task (all matching conflicts, in task-list
order) on conflict, or a confirmation message when no task overlaps. -/
theorem hasConflict_verdict_and_message (st : State) (pet : Pet) (t d : Int) :
    hasConflict st pet t d
      = (!((pet.tasks.filter (fun i => !(st.task i).isCompleted)).filter
            (overlapsNew st t (t + d))).isEmpty,
         if ((pet.tasks.filter (fun i => !(st.task i).isCompleted)).filter
              (overlapsNew st t (t + d))).isEmpty then
           noConflictMsg pet t
         else
           String.intercalate "\n"
             (((pet.tasks.filter (fun i => !(st.task i).isCompleted)).filter
                (overlapsNew st t (t + d))).map
               (fun i => conflictMsg pet (st.task i) (taskWalkDuration st i)))) := by
  unfold hasConflict
  rw [hasConflictReasons_eq]
  by_cases hL : ((pet.tasks.filter (fun i => !(st.task i).isCompleted)).filter
      (overlapsNew st t (t + d))) = []
  · rw [hL]; simp
  · have h1 : ((pet.tasks.filter (fun i => !(st.task i).isCompleted)).filter
        (overlapsNew st t (t + d))).isEmpty = false := by
      simpa [List.isEmpty_iff] using hL
    have h2 : (((pet.tasks.filter (fun i => !(st.task i).isCompleted)).filter
        (overlapsNew st t (t + d))).map
          (fun i => conflictMsg pet (st.task i) (taskWalkDuration st i))).isEmpty = false := by
      simpa [List.isEmpty_iff, List.map_eq_nil_iff] using hL
    simp only [h1, h2, Bool.false_eq_true, if_false, Bool.not_false]

/-- C6 counterexample: at a concrete state where two of Buddy's active walk
tasks overlap the proposed window, the second component of `hasConflict` is
not a list of reason strings but one single string, the newline-join of the
two reason lines (the reasons list itself has two entries). -/
theorem hasConflict_joined_string_counterexample :
    (hasConflictReasons exTwoWalks (exTwoWalks.pets.getD 0 default) 490 30).length = 2 ∧
    hasConflict exTwoWalks (exTwoWalks.pets.getD 0 default) 490 30
      = (true,
         "âš\xa0ï¸  CONFLICT: Buddy already has 'Walk A' at 08:00 AM (duration: 30 min)\nâš\xa0ï¸  CONFLICT: Buddy already has 'Walk B' at 08:20 AM (duration: 30 min)") := by
  exact ⟨rfl, rfl⟩

/-! ## The priority sort: order and stability -/

theorem taskLe_of_key_eq {a b : Task} (h : priorityKey a = priorityKey b) : taskLe a b := by
  unfold taskLe keyLe
  rw [h]
  right
  exact ⟨rfl, le_refl _⟩

theorem filter_key_orderedInsert (k : Nat × Int) (a : Task) (l : List Task) :
    (List.orderedInsert taskLe a l).filter (fun t => priorityKey t = k)
      = if priorityKey a = k then a :: l.filter (fun t => priorityKey t = k)
        else l.filter (fun t => priorityKey t = k) := by
  induction l with
  | nil =>
    by_cases h : priorityKey a = k <;> simp [List.orderedInsert, h]
  | cons b l ih =>
    rw [List.orderedInsert]
    by_cases hab : taskLe a b
    · rw [if_pos hab]
      by_cases hak : priorityKey a = k <;>
        simp [List.filter_cons, hak]
    · rw [if_neg hab]
      have hbk : priorityKey b ≠ priorityKey a := fun h =>
        hab (taskLe_of_key_eq h.symm)
      by_cases hak : priorityKey a = k
      · have hbfalse : ¬ priorityKey b = k := fun h => hbk (h.trans hak.symm)
        rw [if_pos hak]
        rw [List.filter_cons, if_neg (by simpa using hbfalse), ih, if_pos hak]
        rw [List.filter_cons, if_neg (by simpa using hbfalse)]
      · rw [if_neg hak]
        rw [List.filter_cons, ih, if_neg hak, List.filter_cons]

theorem filter_key_insertionSort (k : Nat × Int) (l : List Task) :
    (List.insertionSort taskLe l).filter (fun t => priorityKey t = k)
      = l.filter (fun t => priorityKey t = k) := by
  induction l with
  | nil => rfl
  | cons a l ih =>
    rw [List.insertionSort, filter_key_orderedInsert, List.filter_cons]
    by_cases h : priorityKey a = k <;> simp [h, ih]

/-- C7: `sortTasksByPriority` returns the input sorted ascending by the pair
`(priority rank, dueDate)` — rank mapping high to 0, medium to 1, low to 2
and any other priority string to 3 — as a permutation of the input, and the
sort is stable: the tasks sharing any key value keep their input order. -/
theorem sortTasksByPriority_sorted_stable (tasks : List Task) :
    List.Sorted taskLe (sortTasksByPriority tasks)
    ∧ (sortTasksByPriority tasks).Perm tasks
    ∧ ∀ k : Nat × Int,
        (sortTasksByPriority tasks).filter (fun t => priorityKey t = k)
          = tasks.filter (fun t => priorityKey t = k) :=
  ⟨List.sorted_insertionSort taskLe tasks, List.perm_insertionSort taskLe tasks,
   fun k => filter_key_insertionSort k tasks⟩

/-! ## Recurrence expansion: `completeTask` -/

theorem markComplete_tasks (st : State) (i : Nat) : (markComplete st i).tasks = st.tasks := by
  unfold markComplete
  cases h : (st.task i).walk <;> simp [h]

theorem markComplete_walks (st : State) (i : Nat) : (markComplete st i).walks = st.walks := by
  unfold markComplete
  cases h : (st.task i).walk <;> simp [h]

theorem markComplete_pets (st : State) (i : Nat) : (markComplete st i).pets = st.pets := by
  unfold markComplete
  cases h : (st.task i).walk <;> simp [h]

theorem markComplete_arena_length (st : State) (i : Nat) :
    (markComplete st i).taskArena.length = st.taskArena.length := by
  unfold markComplete
  cases hw : (st.task i).walk <;> simp [hw]

theorem markComplete_taskArena (st : State) (i : Nat) :
    (markComplete st i).taskArena = st.taskArena.set i { st.task i with isCompleted := true } := by
  unfold markComplete
  cases hw : (st.task i).walk <;> simp [hw]

theorem markComplete_walkArena_length (st : State) (i : Nat) :
    (markComplete st i).walkArena.length = st.walkArena.length := by
  unfold markComplete
  cases hw : (st.task i).walk <;> simp [hw]

theorem markComplete_task_self (st : State) (i : Nat) (h : i < st.taskArena.length) :
    (markComplete st i).task i = { st.task i with isCompleted := true } := by
  show (markComplete st i).taskArena.getD i default = _
  rw [markComplete_taskArena]
  exact getD_set_self _ _ _ _ h

theorem markComplete_task_ne (st : State) (i j : Nat) (h : i ≠ j) :
    (markComplete st i).task j = st.task j := by
  show (markComplete st i).taskArena.getD j default = st.taskArena.getD j default
  rw [markComplete_taskArena]
  exact getD_set_ne _ _ _ _ _ h

theorem getNextOccurrence_marked (task : Task) :
    Task.getNextOccurrence { task with isCompleted := true } = task.getNextOccurrence := rfl

/-- The next-occurrence successor task `completeTask` allocates, given the
completed task's fields and the length of `user.tasks` at allocation time. -/
def successorTask (task : Task) (nxt : Int) (n : Nat) : Task :=
  { taskId := "task_" ++ toString (n + 1),
    description := task.description, dueDate := nxt,
    priority := task.priority, isCompleted := false,
    walk := none, user := task.user, pet := task.pet,
    recurrence := task.recurrence }

/-- Closed form of `completeTask` on a task whose recurrence is truthy and
has a next occurrence. -/
theorem completeTask_eq (st : State) (i : Nat) (nxt : Int)
    (hi : i < st.taskArena.length)
    (hrec : (st.task i).recurrence ≠ none ∧ (st.task i).recurrence ≠ some "")
    (hnext : (st.task i).getNextOccurrence = some nxt) :
    completeTask st i =
      ({ pets :=
           (match (st.task i).pet with
            | some p =>
              st.pets.set p
                { st.pets.getD p default with
                    tasks := (st.pets.getD p default).tasks ++ [st.taskArena.length] }
            | none => st.pets),
         taskArena := (markComplete st i).taskArena
           ++ [successorTask (st.task i) nxt st.tasks.length],
         walkArena := (markComplete st i).walkArena,
         tasks := st.tasks ++ [st.taskArena.length],
         walks := st.walks },
       some st.taskArena.length) := by
  have hmt := markComplete_task_self st i hi
  have hlen := markComplete_arena_length st i
  have htk := markComplete_tasks st i
  have hwk := markComplete_walks st i
  have hpt := markComplete_pets st i
  unfold completeTask
  simp only [hmt, htk, hwk, hpt, hlen]
  rw [if_pos hrec, getNextOccurrence_marked, hnext]
  cases hp : (st.task i).pet <;> simp [hp, successorTask]

/-- Bundled consequences of `completeTask_eq` used by the claim theorems. -/
theorem completeTask_spec (st : State) (i : Nat) (nxt : Int)
    (hi : i < st.taskArena.length)
    (hrec : (st.task i).recurrence ≠ none ∧ (st.task i).recurrence ≠ some "")
    (hnext : (st.task i).getNextOccurrence = some nxt) :
    (completeTask st i).2 = some st.taskArena.length ∧
    (completeTask st i).1.taskArena.length = st.taskArena.length + 1 ∧
    (completeTask st i).1.task st.taskArena.length
      = successorTask (st.task i) nxt st.tasks.length ∧
    (completeTask st i).1.task i = { st.task i with isCompleted := true } ∧
    (∀ j, j ≠ i → j < st.taskArena.length → (completeTask st i).1.task j = st.task j) ∧
    (completeTask st i).1.tasks = st.tasks ++ [st.taskArena.length] ∧
    (completeTask st i).1.walks = st.walks ∧
    (∀ p, (st.task i).pet = some p →
      (completeTask st i).1.pets = st.pets.set p
        { st.pets.getD p default with
            tasks := (st.pets.getD p default).tasks ++ [st.taskArena.length] }) ∧
    ((st.task i).pet = none → (completeTask st i).1.pets = st.pets) := by
  rw [completeTask_eq st i nxt hi hrec hnext]
  refine ⟨rfl, ?_, ?_, ?_, ?_, rfl, rfl, ?_, ?_⟩
  · simp [markComplete_arena_length]
  · show ((markComplete st i).taskArena
        ++ [successorTask (st.task i) nxt st.tasks.length]).getD st.taskArena.length default = _
    rw [← markComplete_arena_length st i]
    exact getD_append_last _ _ _
  · show ((markComplete st i).taskArena
        ++ [successorTask (st.task i) nxt st.tasks.length]).getD i default = _
    rw [List.getD_append _ _ _ i (by rw [markComplete_arena_length]; exact hi)]
    exact markComplete_task_self st i hi
  · intro j hj hjlt
    show ((markComplete st i).taskArena
        ++ [successorTask (st.task i) nxt st.tasks.length]).getD j default = _
    rw [List.getD_append _ _ _ j (by rw [markComplete_arena_length]; exact hjlt)]
    exact markComplete_task_ne st i j (fun h => hj h.symm)
  · intro p hp
    simp only [hp]
  · intro hp
    simp only [hp]

/-- A truthy daily or weekly recurrence, unpacked for `completeTask`. -/
theorem recurrence_truthy_of_dw {st : State} {i : Nat}
    (hr : (st.task i).recurrence = some "daily" ∨ (st.task i).recurrence = some "weekly") :
    (st.task i).recurrence ≠ none ∧ (st.task i).recurrence ≠ some "" := by
  cases hr with
  | inl h => rw [h]; exact ⟨by simp, by simp⟩
  | inr h => rw [h]; exact ⟨by simp, by simp⟩

/-- A daily or weekly task always has a next occurrence. -/
theorem nextOccurrence_of_dw {st : State} {i : Nat}
    (hr : (st.task i).recurrence = some "daily" ∨ (st.task i).recurrence = some "weekly") :
    ∃ nxt : Int, (st.task i).getNextOccurrence = some nxt := by
  cases hr with
  | inl h =>
    exact ⟨(st.task i).dueDate + minutesPerDay, by unfold Task.getNextOccurrence; rw [h]; simp⟩
  | inr h =>
    exact ⟨(st.task i).dueDate + minutesPerWeek, by unfold Task.getNextOccurrence; rw [h]; simp⟩

/-- C4: for a task with recurrence "daily" or "weekly", `completeTask` marks
it complete and produces exactly one new task whose description, priority,
pet, user and recurrence equal the original's, whose dueDate equals the
original task's `getNextOccurrence()` result, with `isCompleted = false`, the
freshly generated taskId `task_{len(user.tasks)+1}`, and no attached walk;
the new task is appended to `User.tasks` and, when the task has a pet, to
that pet's task list. -/
theorem completeTask_expands_recurring (st : State) (i : Nat)
    (hi : i < st.taskArena.length)
    (hr : (st.task i).recurrence = some "daily" ∨ (st.task i).recurrence = some "weekly") :
    (completeTask st i).2 = some st.taskArena.length ∧
    (completeTask st i).1.taskArena.length = st.taskArena.length + 1 ∧
    ((completeTask st i).1.task st.taskArena.length).description = (st.task i).description ∧
    ((completeTask st i).1.task st.taskArena.length).priority = (st.task i).priority ∧
    ((completeTask st i).1.task st.taskArena.length).pet = (st.task i).pet ∧
    ((completeTask st i).1.task st.taskArena.length).user = (st.task i).user ∧
    ((completeTask st i).1.task st.taskArena.length).recurrence = (st.task i).recurrence ∧
    (st.task i).getNextOccurrence
      = some ((completeTask st i).1.task st.taskArena.length).dueDate ∧
    ((completeTask st i).1.task st.taskArena.length).isCompleted = false ∧
    ((completeTask st i).1.task st.taskArena.length).walk = none ∧
    ((completeTask st i).1.task st.taskArena.length).taskId
      = "task_" ++ toString (st.tasks.length + 1) ∧
    ((completeTask st i).1.task i).isCompleted = true ∧
    (completeTask st i).1.tasks = st.tasks ++ [st.taskArena.length] ∧
    (∀ p, (st.task i).pet = some p → p < st.pets.length →
      ((completeTask st i).1.pets.getD p default).tasks
        = (st.pets.getD p default).tasks ++ [st.taskArena.length]) := by
  obtain ⟨nxt, hnext⟩ := nextOccurrence_of_dw hr
  have hs := completeTask_spec st i nxt hi (recurrence_truthy_of_dw hr) hnext
  obtain ⟨h1, h2, h3, h4, _h5, h6, _h7, h8, _h9⟩ := hs
  refine ⟨h1, h2, ?_, ?_, ?_, ?_, ?_, ?_, ?_, ?_, ?_, ?_, h6, ?_⟩
  · rw [h3]; rfl
  · rw [h3]; rfl
  · rw [h3]; rfl
  · rw [h3]; rfl
  · rw [h3]; rfl
  · rw [h3, hnext]; rfl
  · rw [h3]; rfl
  · rw [h3]; rfl
  · rw [h3]; rfl
  · rw [h4]
  · intro p hp hplt
    rw [h8 p hp]
    rw [getD_set_self _ _ _ _ hplt]

/-- C4 witness: the daily feeding task of the example state. -/
theorem completeTask_expands_recurring_witness :
    0 < exDaily.taskArena.length ∧
    ((exDaily.task 0).recurrence = some "daily" ∨ (exDaily.task 0).recurrence = some "weekly") ∧
    ((completeTask exDaily 0).2 = some exDaily.taskArena.length ∧
     (completeTask exDaily 0).1.taskArena.length = exDaily.taskArena.length + 1 ∧
     ((completeTask exDaily 0).1.task exDaily.taskArena.length).description
       = (exDaily.task 0).description ∧
     ((completeTask exDaily 0).1.task exDaily.taskArena.length).priority
       = (exDaily.task 0).priority ∧
     ((completeTask exDaily 0).1.task exDaily.taskArena.length).pet = (exDaily.task 0).pet ∧
     ((completeTask exDaily 0).1.task exDaily.taskArena.length).user = (exDaily.task 0).user ∧
     ((completeTask exDaily 0).1.task exDaily.taskArena.length).recurrence
       = (exDaily.task 0).recurrence ∧
     (exDaily.task 0).getNextOccurrence
       = some ((completeTask exDaily 0).1.task exDaily.taskArena.length).dueDate ∧
     ((completeTask exDaily 0).1.task exDaily.taskArena.length).isCompleted = false ∧
     ((completeTask exDaily 0).1.task exDaily.taskArena.length).walk = none ∧
     ((completeTask exDaily 0).1.task exDaily.taskArena.length).taskId
       = "task_" ++ toString (exDaily.tasks.length + 1) ∧
     ((completeTask exDaily 0).1.task 0).isCompleted = true ∧
     (completeTask exDaily 0).1.tasks = exDaily.tasks ++ [exDaily.taskArena.length] ∧
     (∀ p, (exDaily.task 0).pet = some p → p < exDaily.pets.length →
       ((completeTask exDaily 0).1.pets.getD p default).tasks
         = (exDaily.pets.getD p default).tasks ++ [exDaily.taskArena.length])) :=
  ⟨by decide, Or.inl (by decide),
   completeTask_expands_recurring exDaily 0 (by decide) (Or.inl (by decide))⟩

/-- C9: for a task whose recurrence is a non-empty string other than "daily"
or "weekly" (for example "monthly"), `completeTask` marks the task complete,
creates no new task, returns `None`, and leaves `User.tasks` and every pet's
task list unchanged, because `getNextOccurrence` returns no occurrence. -/
theorem completeTask_unknown_recurrence_no_clone (st : State) (i : Nat) (r : String)
    (hi : i < st.taskArena.length)
    (hr : (st.task i).recurrence = some r)
    (hne : r ≠ "") (hnd : r ≠ "daily") (hnw : r ≠ "weekly") :
    (completeTask st i).2 = none ∧
    (completeTask st i).1.tasks = st.tasks ∧
    (completeTask st i).1.taskArena.length = st.taskArena.length ∧
    (completeTask st i).1.pets = st.pets ∧
    ((completeTask st i).1.task i).isCompleted = true := by
  have hrec : (st.task i).recurrence ≠ none ∧ (st.task i).recurrence ≠ some "" := by
    rw [hr]; exact ⟨by simp, by simp [hne]⟩
  have hnext : (st.task i).getNextOccurrence = none := by
    unfold Task.getNextOccurrence
    rw [hr]
    simp [hnd, hnw]
  have hmt := markComplete_task_self st i hi
  unfold completeTask
  simp only [hmt]
  rw [if_pos hrec, getNextOccurrence_marked, hnext]
  exact ⟨rfl, markComplete_tasks st i, markComplete_arena_length st i, markComplete_pets st i,
    by rw [markComplete_task_self st i hi]⟩

/-- C9 witness: the "monthly" vet-visit task of the example state. -/
theorem completeTask_unknown_recurrence_no_clone_witness :
    0 < exMonthly.taskArena.length ∧
    (exMonthly.task 0).recurrence = some "monthly" ∧
    ((completeTask exMonthly 0).2 = none ∧
     (completeTask exMonthly 0).1.tasks = exMonthly.tasks ∧
     (completeTask exMonthly 0).1.taskArena.length = exMonthly.taskArena.length ∧
     (completeTask exMonthly 0).1.pets = exMonthly.pets ∧
     ((completeTask exMonthly 0).1.task 0).isCompleted = true) :=
  ⟨by decide, by decide,
   completeTask_unknown_recurrence_no_clone exMonthly 0 "monthly" (by decide) (by decide)
     (by decide) (by decide) (by decide)⟩

/-- Each `completeTask` in a daily/weekly chain advances the successor's due
date by one fixed period, preserving recurrence and index validity. -/
theorem completeChain_invariant (r : String) (period : Int)
    (hper : (r = "daily" ∧ period = minutesPerDay) ∨ (r = "weekly" ∧ period = minutesPerWeek)) :
    ∀ (N : Nat) (st : State) (i : Nat), i < st.taskArena.length →
      (st.task i).recurrence = some r →
      ((completeChain st i N).1.task (completeChain st i N).2).dueDate
        = (st.task i).dueDate + N * period ∧
      ((completeChain st i N).1.task (completeChain st i N).2).recurrence = some r ∧
      (completeChain st i N).2 < (completeChain st i N).1.taskArena.length := by
  intro N
  induction N with
  | zero =>
    intro st i hi hr
    exact ⟨by simp [completeChain], by simp [completeChain, hr], by simp [completeChain, hi]⟩
  | succ n ih =>
    intro st i hi hr
    have hrdw : (st.task i).recurrence = some "daily" ∨ (st.task i).recurrence = some "weekly" := by
      rcases hper with ⟨h1, _⟩ | ⟨h1, _⟩
      · exact Or.inl (by rw [hr, h1])
      · exact Or.inr (by rw [hr, h1])
    have hnext : (st.task i).getNextOccurrence = some ((st.task i).dueDate + period) := by
      rcases hper with ⟨h1, h2⟩ | ⟨h1, h2⟩ <;> subst h2 <;> rw [h1] at hr <;>
        · unfold Task.getNextOccurrence
          rw [hr]
          simp
    have hs := completeTask_spec st i ((st.task i).dueDate + period) hi
      (recurrence_truthy_of_dw hrdw) hnext
    obtain ⟨h1, h2, h3, _h4, _h5, _h6, _h7, _h8, _h9⟩ := hs
    have hstep : completeChain st i (n + 1)
        = completeChain (completeTask st i).1 ((completeTask st i).2.getD 0) n := by
      simp only [completeChain]
    rw [hstep, h1]
    simp only [Option.getD_some]
    have hlt : st.taskArena.length < (completeTask st i).1.taskArena.length := by
      rw [h2]; omega
    have hrec' : ((completeTask st i).1.task st.taskArena.length).recurrence = some r := by
      rw [h3]; simpa [successorTask] using hr
    obtain ⟨d1, d2, d3⟩ := ih (completeTask st i).1 st.taskArena.length hlt hrec'
    refine ⟨?_, d2, d3⟩
    rw [d1, h3]
    simp only [successorTask]
    push_cast
    ring

/-- C5: for every `N ≥ 1`, completing a daily task and then sequentially
completing each produced successor (`N` completions in total) yields an
`N`-th generation task whose due date is the original's plus `N` days; with
weekly recurrence, plus `7 N` days. -/
theorem completeChain_advances_N_periods (st : State) (i : Nat) (N : Nat)
    (_hN : 1 ≤ N) (hi : i < st.taskArena.length) :
    ((st.task i).recurrence = some "daily" →
      ((completeChain st i N).1.task (completeChain st i N).2).dueDate
        = (st.task i).dueDate + N * minutesPerDay) ∧
    ((st.task i).recurrence = some "weekly" →
      ((completeChain st i N).1.task (completeChain st i N).2).dueDate
        = (st.task i).dueDate + N * minutesPerWeek) :=
  ⟨fun h => (completeChain_invariant "daily" minutesPerDay (Or.inl ⟨rfl, rfl⟩) N st i hi h).1,
   fun h => (completeChain_invariant "weekly" minutesPerWeek (Or.inr ⟨rfl, rfl⟩) N st i hi h).1⟩

/-- C5 witness: three chained completions of the daily feeding task move its
due date three days forward. -/
theorem completeChain_advances_N_periods_witness :
    1 ≤ 3 ∧ 0 < exDaily.taskArena.length ∧
    (exDaily.task 0).recurrence = some "daily" ∧
    ((completeChain exDaily 0 3).1.task (completeChain exDaily 0 3).2).dueDate
      = (exDaily.task 0).dueDate + 3 * minutesPerDay :=
  ⟨by decide, by decide, by decide,
   (completeChain_advances_N_periods exDaily 0 3 (by decide) (by decide)).1 (by decide)⟩

/-- C8: `completeTask` never checks `isCompleted`, so completing the same
recurring task object twice appends two successor tasks with identical due
date, description, priority, pet, user and recurrence to `User.tasks` (and
to the pet's task list): it is not idempotent at the scheduler level. -/
theorem completeTask_twice_not_idempotent (st : State) (i : Nat)
    (hi : i < st.taskArena.length)
    (hr : (st.task i).recurrence = some "daily" ∨ (st.task i).recurrence = some "weekly") :
    (completeTask st i).2 = some st.taskArena.length ∧
    (completeTask (completeTask st i).1 i).2 = some (st.taskArena.length + 1) ∧
    st.taskArena.length ≠ st.taskArena.length + 1 ∧
    ((completeTask (completeTask st i).1 i).1.task st.taskArena.length).dueDate
      = ((completeTask (completeTask st i).1 i).1.task (st.taskArena.length + 1)).dueDate ∧
    ((completeTask (completeTask st i).1 i).1.task st.taskArena.length).description
      = ((completeTask (completeTask st i).1 i).1.task (st.taskArena.length + 1)).description ∧
    ((completeTask (completeTask st i).1 i).1.task st.taskArena.length).priority
      = ((completeTask (completeTask st i).1 i).1.task (st.taskArena.length + 1)).priority ∧
    ((completeTask (completeTask st i).1 i).1.task st.taskArena.length).pet
      = ((completeTask (completeTask st i).1 i).1.task (st.taskArena.length + 1)).pet ∧
    ((completeTask (completeTask st i).1 i).1.task st.taskArena.length).user
      = ((completeTask (completeTask st i).1 i).1.task (st.taskArena.length + 1)).user ∧
    ((completeTask (completeTask st i).1 i).1.task st.taskArena.length).recurrence
      = ((completeTask (completeTask st i).1 i).1.task (st.taskArena.length + 1)).recurrence ∧
    (completeTask (completeTask st i).1 i).1.tasks
      = st.tasks ++ [st.taskArena.length, st.taskArena.length + 1] ∧
    (∀ p, (st.task i).pet = some p → p < st.pets.length →
      ((completeTask (completeTask st i).1 i).1.pets.getD p default).tasks
        = (st.pets.getD p default).tasks
            ++ [st.taskArena.length, st.taskArena.length + 1]) := by
  obtain ⟨nxt, hnext⟩ := nextOccurrence_of_dw hr
  obtain ⟨a1, a2, a3, a4, _a5, a6, _a7, a8, _a9⟩ :=
    completeTask_spec st i nxt hi (recurrence_truthy_of_dw hr) hnext
  have hi' : i < (completeTask st i).1.taskArena.length := by rw [a2]; omega
  have hrec' : ((completeTask st i).1.task i).recurrence ≠ none ∧
      ((completeTask st i).1.task i).recurrence ≠ some "" := by
    rw [a4]; exact recurrence_truthy_of_dw hr
  have hnext' : ((completeTask st i).1.task i).getNextOccurrence = some nxt := by
    rw [a4, getNextOccurrence_marked, hnext]
  obtain ⟨b1, _b2, b3, _b4, b5, b6, _b7, b8, _b9⟩ :=
    completeTask_spec (completeTask st i).1 i nxt hi' hrec' hnext'
  have hb1 : (completeTask (completeTask st i).1 i).2 = some (st.taskArena.length + 1) := by
    rw [b1, a2]
  have hsucc1 : (completeTask (completeTask st i).1 i).1.task st.taskArena.length
      = successorTask (st.task i) nxt st.tasks.length := by
    rw [b5 st.taskArena.length (by omega) (by rw [a2]; omega), a3]
  have hsucc2 : (completeTask (completeTask st i).1 i).1.task (st.taskArena.length + 1)
      = successorTask ((completeTask st i).1.task i) nxt (completeTask st i).1.tasks.length := by
    rw [← a2, b3]
  refine ⟨a1, hb1, by omega, ?_, ?_, ?_, ?_, ?_, ?_, ?_, ?_⟩
  · rw [hsucc1, hsucc2]; rfl
  · rw [hsucc1, hsucc2, a4]; rfl
  · rw [hsucc1, hsucc2, a4]; rfl
  · rw [hsucc1, hsucc2, a4]; rfl
  · rw [hsucc1, hsucc2, a4]; rfl
  · rw [hsucc1, hsucc2, a4]; rfl
  · rw [b6, a6, a2]
    simp
  · intro p hp hplt
    have hp' : ((completeTask st i).1.task i).pet = some p := by
      rw [a4]; exact hp
    have hplt' : p < (completeTask st i).1.pets.length := by
      rw [a8 p hp, List.length_set]; exact hplt
    rw [b8 p hp', getD_set_self _ _ _ _ hplt', a8 p hp, getD_set_self _ _ _ _ hplt, a2]
    simp

/-- C8 witness: completing the daily feeding task twice. -/
theorem completeTask_twice_not_idempotent_witness :
    0 < exDaily.taskArena.length ∧
    (exDaily.task 0).recurrence = some "daily" ∧
    ((completeTask exDaily 0).2 = some exDaily.taskArena.length ∧
     (completeTask (completeTask exDaily 0).1 0).2 = some (exDaily.taskArena.length + 1) ∧
     exDaily.taskArena.length ≠ exDaily.taskArena.length + 1 ∧
     ((completeTask (completeTask exDaily 0).1 0).1.task exDaily.taskArena.length).dueDate
       = ((completeTask (completeTask exDaily 0).1 0).1.task
           (exDaily.taskArena.length + 1)).dueDate ∧
     ((completeTask (completeTask exDaily 0).1 0).1.task exDaily.taskArena.length).description
       = ((completeTask (completeTask exDaily 0).1 0).1.task
           (exDaily.taskArena.length + 1)).description ∧
     ((completeTask (completeTask exDaily 0).1 0).1.task exDaily.taskArena.length).priority
       = ((completeTask (completeTask exDaily 0).1 0).1.task
           (exDaily.taskArena.length + 1)).priority ∧
     ((completeTask (completeTask exDaily 0).1 0).1.task exDaily.taskArena.length).pet
       = ((completeTask (completeTask exDaily 0).1 0).1.task
           (exDaily.taskArena.length + 1)).pet ∧
     ((completeTask (completeTask exDaily 0).1 0).1.task exDaily.taskArena.length).user
       = ((completeTask (completeTask exDaily 0).1 0).1.task
           (exDaily.taskArena.length + 1)).user ∧
     ((completeTask (completeTask exDaily 0).1 0).1.task exDaily.taskArena.length).recurrence
       = ((completeTask (completeTask exDaily 0).1 0).1.task
           (exDaily.taskArena.length + 1)).recurrence ∧
     (completeTask (completeTask exDaily 0).1 0).1.tasks
       = exDaily.tasks ++ [exDaily.taskArena.length, exDaily.taskArena.length + 1] ∧
     (∀ p, (exDaily.task 0).pet = some p → p < exDaily.pets.length →
       ((completeTask (completeTask exDaily 0).1 0).1.pets.getD p default).tasks
         = (exDaily.pets.getD p default).tasks
             ++ [exDaily.taskArena.length, exDaily.taskArena.length + 1])) :=
  ⟨by decide, by decide,
   completeTask_twice_not_idempotent exDaily 0 (by decide) (Or.inl (by decide))⟩

/-! ## `scheduleWalk`: rejection and the no-overlap invariant -/

/-- Helper: the conflict branch of `scheduleWalk` returns the state
untouched. -/
theorem scheduleWalk_conflict_eq (st : State) (petIdx : Nat) (time duration : Int)
    (h : (hasConflict st (st.pets.getD petIdx default) time duration).1 = true) :
    scheduleWalk st petIdx time duration = (st, none) := by
  unfold scheduleWalk
  rw [if_pos h]

/-- C2: whenever `hasConflict` reports a conflict for the proposed walk,
`scheduleWalk` returns `None` and creates nothing: the entire state —
`User.tasks`, `User.walks`, both arenas and every pet's task list — is
exactly as before the call. -/
theorem scheduleWalk_conflict_rejects (st : State) (petIdx : Nat) (time duration : Int)
    (h : (hasConflict st (st.pets.getD petIdx default) time duration).1 = true) :
    scheduleWalk st petIdx time duration = (st, none) :=
  scheduleWalk_conflict_eq st petIdx time duration h

/-- C2 witness: proposing 08:10–08:40 for Buddy, who already walks at 08:00,
is rejected without any state change. -/
theorem scheduleWalk_conflict_rejects_witness :
    (hasConflict exTwoWalks (exTwoWalks.pets.getD 0 default) 490 30).1 = true ∧
    scheduleWalk exTwoWalks 0 490 30 = (exTwoWalks, none) :=
  ⟨by decide, scheduleWalk_conflict_rejects exTwoWalks 0 490 30 (by decide)⟩

/-- Closed form of the non-conflicting branch of `scheduleWalk`. -/
theorem scheduleWalk_noconflict_eq (st : State) (petIdx : Nat) (time duration : Int)
    (h : (hasConflict st (st.pets.getD petIdx default) time duration).1 = false) :
    scheduleWalk st petIdx time duration =
      ({ pets := st.pets.set petIdx
           { st.pets.getD petIdx default with
               tasks := (st.pets.getD petIdx default).tasks ++ [st.taskArena.length] },
         taskArena := st.taskArena ++
           [{ taskId := "task_" ++ toString (st.tasks.length + 1),
              description := "Walk " ++ (st.pets.getD petIdx default).name, dueDate := time,
              priority := "high", isCompleted := false, walk := some st.walkArena.length,
              user := some (), pet := some petIdx, recurrence := none }],
         walkArena := st.walkArena ++
           [{ walkId := "walk_" ++ toString (st.walks.length + 1), pet := petIdx,
              scheduledTime := time, duration := duration, status := "scheduled" }],
         tasks := st.tasks ++ [st.taskArena.length],
         walks := st.walks ++ [st.walkArena.length] },
       some st.walkArena.length) := by
  unfold scheduleWalk
  rw [if_neg (by rw [h]; exact Bool.false_ne_true)]

theorem Extends.task_eq {st' st : State} (h : Extends st' st) {i : Nat}
    (hi : i < st.taskArena.length) : st'.task i = st.task i := by
  obtain ⟨⟨ts, hts⟩, _⟩ := h
  show st'.taskArena.getD i default = st.taskArena.getD i default
  rw [hts]
  exact List.getD_append _ _ _ _ hi

theorem Extends.walkAt_eq {st' st : State} (h : Extends st' st) {w : Nat}
    (hw : w < st.walkArena.length) : st'.walkAt w = st.walkAt w := by
  obtain ⟨_, ⟨ws, hws⟩⟩ := h
  show st'.walkArena.getD w default = st.walkArena.getD w default
  rw [hws]
  exact List.getD_append _ _ _ _ hw

theorem Extends.taskWalkDuration_eq {st' st : State} (h : Extends st' st) {i : Nat}
    (hi : i < st.taskArena.length)
    (hwv : ∀ w, (st.task i).walk = some w → w < st.walkArena.length) :
    taskWalkDuration st' i = taskWalkDuration st i := by
  unfold taskWalkDuration
  rw [h.task_eq hi]
  cases hw : (st.task i).walk with
  | none => rfl
  | some w => simp only [hw]; rw [h.walkAt_eq (hwv w hw)]

theorem Extends.overlaps_eq {st' st : State} (h : Extends st' st) {i j : Nat}
    (hi : i < st.taskArena.length) (hj : j < st.taskArena.length)
    (hwi : ∀ w, (st.task i).walk = some w → w < st.walkArena.length)
    (hwj : ∀ w, (st.task j).walk = some w → w < st.walkArena.length) :
    overlaps st' i j = overlaps st i j := by
  unfold overlaps
  rw [h.task_eq hi, h.task_eq hj, h.taskWalkDuration_eq hi hwi, h.taskWalkDuration_eq hj hwj]

theorem Extends.activeWalkTask_iff {st' st : State} (h : Extends st' st) {i : Nat}
    (hi : i < st.taskArena.length) : activeWalkTask st' i ↔ activeWalkTask st i := by
  unfold activeWalkTask
  rw [h.task_eq hi]

theorem WF.walk_valid {st : State} (hwf : WF st) {i : Nat} (hi : i < st.taskArena.length) :
    ∀ w, (st.task i).walk = some w → w < st.walkArena.length := by
  intro w hw
  have hmem : st.task i ∈ st.taskArena := by
    show st.taskArena.getD i default ∈ st.taskArena
    rw [List.getD_eq_getElem _ _ hi]
    exact List.getElem_mem hi
  exact hwf.2.1 (st.task i) hmem w hw

/-- A pet record read from the user's pet list is either a member of the list
or the default record (whose task list is empty). -/
theorem getD_pet_cases (st : State) (petIdx : Nat) :
    st.pets.getD petIdx default ∈ st.pets ∨ (st.pets.getD petIdx default).tasks = [] := by
  by_cases hp : petIdx < st.pets.length
  · left
    rw [List.getD_eq_getElem _ _ hp]
    exact List.getElem_mem hp
  · right
    rw [List.getD_eq_default _ _ (le_of_not_lt hp)]
    rfl

/-- One conflict-checked `scheduleWalk` call preserves well-formedness and
the per-pet no-overlap invariant. -/
theorem scheduleWalk_preserves (st : State) (petIdx : Nat) (time duration : Int)
    (hwf : WF st) (hno : NoOverlaps st) :
    WF (scheduleWalk st petIdx time duration).1 ∧
    NoOverlaps (scheduleWalk st petIdx time duration).1 := by
  by_cases hcb : (hasConflict st (st.pets.getD petIdx default) time duration).1 = true
  · rw [scheduleWalk_conflict_eq st petIdx time duration hcb]
    exact ⟨hwf, hno⟩
  · have hc' : (hasConflict st (st.pets.getD petIdx default) time duration).1 = false :=
      Bool.eq_false_iff.mpr hcb
    have hnotex : ¬∃ i ∈ (st.pets.getD petIdx default).tasks,
        (st.task i).isCompleted = false ∧
        ∃ w, (st.task i).walk = some w ∧
          time < (st.task i).dueDate + (st.walkAt w).duration ∧
          time + duration > (st.task i).dueDate := by
      rw [← hasConflict_fst_iff st (st.pets.getD petIdx default) time duration, hc']
      exact Bool.false_ne_true
    rw [scheduleWalk_noconflict_eq st petIdx time duration hc']
    set pet := st.pets.getD petIdx default with hpet
    set newTask : Task :=
      { taskId := "task_" ++ toString (st.tasks.length + 1),
        description := "Walk " ++ pet.name, dueDate := time,
        priority := "high", isCompleted := false, walk := some st.walkArena.length,
        user := some (), pet := some petIdx, recurrence := none } with hnewTask
    set newWalk : Walk :=
      { walkId := "walk_" ++ toString (st.walks.length + 1), pet := petIdx,
        scheduledTime := time, duration := duration, status := "scheduled" } with hnewWalk
    set New : State :=
      { pets := st.pets.set petIdx { pet with tasks := pet.tasks ++ [st.taskArena.length] },
        taskArena := st.taskArena ++ [newTask],
        walkArena := st.walkArena ++ [newWalk],
        tasks := st.tasks ++ [st.taskArena.length],
        walks := st.walks ++ [st.walkArena.length] } with hNew
    have hext : Extends New st := ⟨⟨[newTask], rfl⟩, ⟨[newWalk], rfl⟩⟩
    have hlenT : New.taskArena.length = st.taskArena.length + 1 := by
      rw [hNew]; simp
    have hlenW : New.walkArena.length = st.walkArena.length + 1 := by
      rw [hNew]; simp
    have hnewtask_eq : New.task st.taskArena.length = newTask := by
      show (st.taskArena ++ [newTask]).getD st.taskArena.length default = newTask
      exact getD_append_last _ _ _
    have hnewwalk_eq : New.walkAt st.walkArena.length = newWalk := by
      show (st.walkArena ++ [newWalk]).getD st.walkArena.length default = newWalk
      exact getD_append_last _ _ _
    have hdurNew : taskWalkDuration New st.taskArena.length = duration := by
      unfold taskWalkDuration
      rw [hnewtask_eq]
      simp only [hnewTask]
      rw [hnewwalk_eq]
    have hboundPet : ∀ a ∈ pet.tasks, a < st.taskArena.length := by
      intro a ha
      rcases getD_pet_cases st petIdx with hmem | hnil
      · exact hwf.1 pet hmem a ha
      · rw [← hpet] at hnil
        rw [hnil] at ha
        simp at ha
    constructor
    · -- well-formedness of the extended state
      refine ⟨?_, ?_, ?_⟩
      · intro pet' hmem i hi
        rw [hlenT]
        rcases List.mem_or_eq_of_mem_set hmem with hold | hnewpet
        · exact Nat.lt_succ_of_lt (hwf.1 pet' hold i hi)
        · rw [hnewpet] at hi
          rcases List.mem_append.mp hi with h1 | h2
          · exact Nat.lt_succ_of_lt (hboundPet i h1)
          · rw [List.mem_singleton] at h2
            omega
      · intro task hmem w hw
        rw [hlenW]
        rcases List.mem_append.mp hmem with h1 | h2
        · exact Nat.lt_succ_of_lt (hwf.2.1 task h1 w hw)
        · rw [List.mem_singleton] at h2
          rw [h2] at hw
          simp only [hnewTask, Option.mem_def, Option.some.injEq] at hw
          omega
      · intro i hi
        rw [hlenT]
        rcases List.mem_append.mp hi with h1 | h2
        · exact Nat.lt_succ_of_lt (hwf.2.2 i h1)
        · rw [List.mem_singleton] at h2
          omega
    · -- the no-overlap invariant
      intro pet' hmem
      have htransfer : ∀ q ∈ st.pets, q.tasks.Pairwise (fun i j =>
          activeWalkTask New i → activeWalkTask New j → overlaps New i j = false) := by
        intro q hq
        refine (hno q hq).imp_of_mem ?_
        intro a b ha hb hrel hact1 hact2
        have ha' := hwf.1 q hq a ha
        have hb' := hwf.1 q hq b hb
        rw [hext.overlaps_eq ha' hb' (hwf.walk_valid ha') (hwf.walk_valid hb')]
        exact hrel ((hext.activeWalkTask_iff ha').mp hact1)
          ((hext.activeWalkTask_iff hb').mp hact2)
      rcases List.mem_or_eq_of_mem_set hmem with hold | hnewpet
      · exact htransfer pet' hold
      · rw [hnewpet]
        rw [List.pairwise_append]
        refine ⟨?_, List.pairwise_singleton _ _, ?_⟩
        · rcases getD_pet_cases st petIdx with hmemp | hnil
          · exact htransfer pet (by rw [hpet]; exact hmemp)
          · rw [← hpet] at hnil
            rw [hnil]
            exact List.Pairwise.nil
        · intro a ha b hb hact1 hact2
          rw [List.mem_singleton] at hb
          subst hb
          have ha' := hboundPet a ha
          have hactA : activeWalkTask st a := (hext.activeWalkTask_iff ha').mp hact1
          obtain ⟨w, hw⟩ := Option.isSome_iff_exists.mp hactA.2
          have hnool : ¬(time < (st.task a).dueDate + (st.walkAt w).duration ∧
              time + duration > (st.task a).dueDate) := by
            intro hcontra
            exact hnotex ⟨a, ha, hactA.1, w, hw, hcontra⟩
          have hdurA : taskWalkDuration st a = (st.walkAt w).duration := by
            unfold taskWalkDuration
            simp only [hw]
          unfold overlaps
          rw [hext.task_eq ha', hnewtask_eq, hdurNew,
            hext.taskWalkDuration_eq ha' (hwf.walk_valid ha'), hdurA]
          simp only [hnewTask]
          simp only [Bool.and_eq_false_iff, decide_eq_false_iff_not]
          omega

theorem applyWalks_cons (st : State) (c : WalkCall) (cs : List WalkCall) :
    applyWalks st (c :: cs) = applyWalks (scheduleWalk st c.petIdx c.time c.duration).1 cs := by
  unfold applyWalks
  rw [List.foldl_cons]

/-- Any sequence of `scheduleWalk` calls preserves well-formedness and the
no-overlap invariant. -/
theorem applyWalks_preserves (calls : List WalkCall) :
    ∀ st : State, WF st → NoOverlaps st →
      WF (applyWalks st calls) ∧ NoOverlaps (applyWalks st calls) := by
  induction calls with
  | nil => exact fun st hwf hno => ⟨hwf, hno⟩
  | cons c cs ih =>
    intro st hwf hno
    rw [applyWalks_cons]
    obtain ⟨hwf', hno'⟩ := scheduleWalk_preserves st c.petIdx c.time c.duration hwf hno
    exact ih _ hwf' hno'

/-- A state whose pets own no walk-bearing tasks trivially satisfies the
no-overlap invariant. -/
theorem noOverlaps_of_no_walk_tasks (st : State)
    (hinit : ∀ pet ∈ st.pets, ∀ i ∈ pet.tasks, (st.task i).walk = none) :
    NoOverlaps st := by
  intro pet hmem
  apply List.pairwise_of_forall_mem_list
  intro a ha _b _hb hact1 _hact2
  have := hact1.2
  rw [hinit pet hmem a ha] at this
  simp at this

theorem pairConflicts_eq_nil (st : State) (pet : Pet) (l : List Nat)
    (h : List.Pairwise (fun i j => overlaps st i j = false) l) :
    pairConflicts st pet l = [] := by
  induction l with
  | nil => rfl
  | cons i rest ih =>
    rw [List.pairwise_cons] at h
    rw [pairConflicts]
    have hf : rest.filter (fun j => overlaps st i j) = [] := by
      rw [List.filter_eq_nil_iff]
      intro j hj
      rw [h.1 j hj]
      simp
    rw [hf, ih h.2]
    simp

/-- Under the no-overlap invariant the schedule-wide scan reports nothing. -/
theorem checkAllConflicts_eq_nil (st : State) (hno : NoOverlaps st) :
    checkAllConflicts st = [] := by
  unfold checkAllConflicts
  rw [List.flatten_eq_nil_iff]
  intro l hl
  rw [List.mem_map] at hl
  obtain ⟨pet, hpet, rfl⟩ := hl
  apply pairConflicts_eq_nil
  have hsub : (activeWalkTasks st pet).Sublist pet.tasks := List.filter_sublist pet.tasks
  have hp2 := List.Pairwise.sublist hsub (hno pet hpet)
  refine hp2.imp_of_mem ?_
  intro a b ha hb hrel
  unfold activeWalkTasks at ha hb
  rw [List.mem_filter] at ha hb
  have hact1 : activeWalkTask st a :=
    ⟨by simpa using Bool.and_elim_left ha.2, Bool.and_elim_right ha.2⟩
  have hact2 : activeWalkTask st b :=
    ⟨by simpa using Bool.and_elim_left hb.2, Bool.and_elim_right hb.2⟩
  exact hrel hact1 hact2

/-- C3: starting from a well-formed user state whose pets have no
walk-bearing tasks, after any sequence of `scheduleWalk` calls no two active
(`isCompleted == false`) walk-bearing tasks of the same pet have overlapping
half-open windows, and `checkAllConflicts()` returns the empty list
(back-to-back windows remain permitted, since the overlap test is strict). -/
theorem scheduleWalk_sequence_conflict_free (st0 : State) (calls : List WalkCall)
    (hwf : WF st0)
    (hinit : ∀ pet ∈ st0.pets, ∀ i ∈ pet.tasks, (st0.task i).walk = none) :
    NoOverlaps (applyWalks st0 calls) ∧ checkAllConflicts (applyWalks st0 calls) = [] := by
  obtain ⟨_, hno⟩ :=
    applyWalks_preserves calls st0 hwf (noOverlaps_of_no_walk_tasks st0 hinit)
  exact ⟨hno, checkAllConflicts_eq_nil _ hno⟩

/-- C3 witness: the spec's scenario — walks at 08:00/30min, 08:15/30min
(rejected), 08:30/20min (back-to-back, accepted) — on a fresh user. -/
theorem scheduleWalk_sequence_conflict_free_witness :
    WF exEmpty ∧
    (∀ pet ∈ exEmpty.pets, ∀ i ∈ pet.tasks, (exEmpty.task i).walk = none) ∧
    (NoOverlaps (applyWalks exEmpty exCalls) ∧
     checkAllConflicts (applyWalks exEmpty exCalls) = []) :=
  ⟨by unfold WF; decide, by decide,
   scheduleWalk_sequence_conflict_free exEmpty exCalls (by unfold WF; decide) (by decide)⟩

/-! ## `rescheduleMissedTasks`: successors never reach the pet lists -/

theorem rescheduleStep_pets (now : Int) (st : State) (i : Nat) :
    (rescheduleStep now st i).pets = st.pets := by
  unfold rescheduleStep
  dsimp only
  split
  · split
    · split <;> simp [markComplete_pets]
    · rfl
  · rfl

theorem rescheduleStep_tasks_extend (now : Int) (st : State) (i : Nat) :
    ∃ l, (rescheduleStep now st i).tasks = st.tasks ++ l := by
  unfold rescheduleStep
  dsimp only
  split
  · split
    · split <;>
        · dsimp only
          simp only [markComplete_tasks]
          exact ⟨_, rfl⟩
    · exact ⟨[], by simp⟩
  · exact ⟨[], by simp⟩

theorem rescheduleStep_arena_le (now : Int) (st : State) (i : Nat) :
    st.taskArena.length ≤ (rescheduleStep now st i).taskArena.length := by
  unfold rescheduleStep
  dsimp only
  split
  · split
    · split <;> simp [markComplete_taskArena]
    · exact le_refl _
  · exact le_refl _

theorem rescheduleLoop_pets (now : Int) :
    ∀ (fuel : Nat) (st : State) (k : Nat), (rescheduleLoop now fuel st k).pets = st.pets := by
  intro fuel
  induction fuel with
  | zero => intro st k; rfl
  | succ n ih =>
    intro st k
    rw [rescheduleLoop]
    split
    · rw [ih, rescheduleStep_pets]
    · rfl

theorem rescheduleLoop_tasks_extend (now : Int) :
    ∀ (fuel : Nat) (st : State) (k : Nat),
      ∃ l, (rescheduleLoop now fuel st k).tasks = st.tasks ++ l := by
  intro fuel
  induction fuel with
  | zero => intro st k; exact ⟨[], by simp [rescheduleLoop]⟩
  | succ n ih =>
    intro st k
    rw [rescheduleLoop]
    split
    · obtain ⟨l1, h1⟩ := rescheduleStep_tasks_extend now st (st.tasks.getD k 0)
      obtain ⟨l2, h2⟩ := ih (rescheduleStep now st (st.tasks.getD k 0)) (k + 1)
      exact ⟨l1 ++ l2, by rw [h2, h1, List.append_assoc]⟩
    · exact ⟨[], by simp⟩

theorem rescheduleLoop_arena_le (now : Int) :
    ∀ (fuel : Nat) (st : State) (k : Nat),
      st.taskArena.length ≤ (rescheduleLoop now fuel st k).taskArena.length := by
  intro fuel
  induction fuel with
  | zero => intro st k; exact le_refl _
  | succ n ih =>
    intro st k
    rw [rescheduleLoop]
    split
    · exact le_trans (rescheduleStep_arena_le now st _) (ih _ (k + 1))
    · exact le_refl _

/-- C10: `rescheduleMissedTasks` appends each newly created successor task
only to `User.tasks` and never to any pet's task list: the pets component is
returned untouched while `user.tasks` only grows, so, in a well-formed state,
every index in a pet's task list still points below the pre-call task-arena
length and no successor (allocated at or above that length) is ever reachable
from a pet — it is invisible to `hasConflict`, `checkAllConflicts` and
`Pet.getScheduledWalks`, which scan tasks only through `pet.tasks`. -/
theorem rescheduleMissedTasks_successors_invisible (now : Int) (st : State) (fuel : Nat)
    (hwf : WF st) :
    (rescheduleMissedTasks now st fuel).pets = st.pets ∧
    (∃ l, (rescheduleMissedTasks now st fuel).tasks = st.tasks ++ l) ∧
    st.taskArena.length ≤ (rescheduleMissedTasks now st fuel).taskArena.length ∧
    (∀ pet ∈ (rescheduleMissedTasks now st fuel).pets, ∀ j,
      st.taskArena.length ≤ j → j ∉ pet.tasks) := by
  unfold rescheduleMissedTasks
  refine ⟨rescheduleLoop_pets now fuel st 0, rescheduleLoop_tasks_extend now fuel st 0,
    rescheduleLoop_arena_le now fuel st 0, ?_⟩
  intro pet hpet j hj hmem
  rw [rescheduleLoop_pets now fuel st 0] at hpet
  exact absurd (hwf.1 pet hpet j hmem) (by omega)

/-- C10 witness: rescheduling the overdue daily feeding task (due 08:00 of
day 0, clock at day 1) creates a successor in `user.tasks` but leaves
Buddy's task list untouched. -/
theorem rescheduleMissedTasks_successors_invisible_witness :
    WF exDaily ∧
    ((rescheduleMissedTasks 2000 exDaily 5).pets = exDaily.pets ∧
     (∃ l, (rescheduleMissedTasks 2000 exDaily 5).tasks = exDaily.tasks ++ l) ∧
     exDaily.taskArena.length ≤ (rescheduleMissedTasks 2000 exDaily 5).taskArena.length ∧
     (∀ pet ∈ (rescheduleMissedTasks 2000 exDaily 5).pets, ∀ j,
       exDaily.taskArena.length ≤ j → j ∉ pet.tasks)) :=
  ⟨by unfold WF; decide,
   rescheduleMissedTasks_successors_invisible 2000 exDaily 5 (by unfold WF; decide)⟩

end PawPal
